import Mathlib

/-!
Verification of the WebSocket connection registry and broadcast engine of the
dawud-charity-backend (src/websocket_manager.py and the `/ws/admin` endpoint of
src/main.py).

The `ConnectionManager` state is embedded shallowly: the Python
`Dict[str, Set[WebSocket]]` becomes an insertion-ordered association list
(Python dicts preserve insertion order; updates keep the slot, inserts append),
each set becomes a duplicate-free list, and the separately maintained
`connection_count` (a Python `int`, which may go negative) becomes an `Int`.
WebSocket connection objects are identified by numeric handles.
-/

namespace WSVerify

/-- A WebSocket connection handle. -/
abbrev WS := Nat

/-- State of `ConnectionManager` (src/websocket_manager.py, lines 18-21):
`active_connections: Dict[str, Set[WebSocket]]` and `connection_count`. -/
structure ConnectionManager where
  active_connections : List (String × List WS)
  connection_count : Int
deriving Repr, DecidableEq

/-- Lookup `d[k]` on the ordered dict (first — and, for a well-formed dict,
only — entry with key `k`). -/
def dictLookup (d : List (String × List WS)) (k : String) : Option (List WS) :=
  match d with
  | [] => none
  | e :: rest => if e.1 = k then some e.2 else dictLookup rest k

/-- Assignment `d[k] = v` on the ordered dict: update in place if the key is present,
otherwise append at the end (Python dict insertion order). -/
def dictSet (d : List (String × List WS)) (k : String) (v : List WS) :
    List (String × List WS) :=
  match d with
  | [] => [(k, v)]
  | e :: rest => if e.1 = k then (k, v) :: rest else e :: dictSet rest k v

/-- Deletion `del d[k]` on the ordered dict. -/
def dictDel (d : List (String × List WS)) (k : String) : List (String × List WS) :=
  match d with
  | [] => []
  | e :: rest => if e.1 = k then rest else e :: dictDel rest k

/-- Python `set.add`: no duplicates. -/
def setAdd (s : List WS) (w : WS) : List WS :=
  if w ∈ s then s else s ++ [w]

/-- Initial state from `ConnectionManager.__init__` (src/websocket_manager.py, lines 18-21):
empty dict, zero count. -/
def emptyCM : ConnectionManager :=
  { active_connections := [], connection_count := 0 }

/-- Registry effect of `ConnectionManager.connect(self, websocket,
admin_username)` (src/websocket_manager.py, lines 23-33): ensure a set exists
for the username, add the websocket to it (set semantics: no duplicate), and
increment `connection_count` unconditionally.  The `accept` handshake and the
welcome message are modelled in the session layer below. -/
def ConnectionManager.connect (cm : ConnectionManager) (websocket : WS)
    (admin_username : String) : ConnectionManager :=
  let s := (dictLookup cm.active_connections admin_username).getD []
  { active_connections := dictSet cm.active_connections admin_username (setAdd s websocket),
    connection_count := cm.connection_count + 1 }

/-- Model of `ConnectionManager.disconnect(self, websocket, admin_username)`
(src/websocket_manager.py, lines 45-55): if the username has an entry,
`discard` the websocket from its set (no error if absent), decrement
`connection_count` unconditionally, and delete the entry when its set became
empty. -/
def ConnectionManager.disconnect (cm : ConnectionManager) (websocket : WS)
    (admin_username : String) : ConnectionManager :=
  match dictLookup cm.active_connections admin_username with
  | none => cm
  | some s =>
    let s1 := s.erase websocket
    { active_connections :=
        if s1 = [] then dictDel cm.active_connections admin_username
        else dictSet cm.active_connections admin_username s1,
      connection_count := cm.connection_count - 1 }

/-- Model of `ConnectionManager.get_connection_count` (src/websocket_manager.py,
lines 125-127). -/
def ConnectionManager.get_connection_count (cm : ConnectionManager) : Int :=
  cm.connection_count

/-- Model of `ConnectionManager.get_connected_admins` (src/websocket_manager.py,
lines 129-131): `list(self.active_connections.keys())`. -/
def ConnectionManager.get_connected_admins (cm : ConnectionManager) : List String :=
  cm.active_connections.map Prod.fst

/-- All currently-registered (identity, connection) pairs, in registry order. -/
def pairsOf (d : List (String × List WS)) : List (String × WS) :=
  d.flatMap fun e => e.2.map fun w => (e.1, w)

/-- The (identity, connection) pairs registered in the manager. -/
def ConnectionManager.pairs (cm : ConnectionManager) : List (String × WS) :=
  pairsOf cm.active_connections

/-- Well-formedness that every state reachable through the Python code has:
dict keys are unique and each set holds no duplicates. -/
def WF (cm : ConnectionManager) : Prop :=
  (cm.active_connections.map Prod.fst).Nodup ∧ ∀ e ∈ cm.active_connections, e.2.Nodup

instance (cm : ConnectionManager) : Decidable (WF cm) := by
  unfold WF; infer_instance

/-- A `Register`/`Unregister` call, with the source's argument order
(websocket first). -/
inductive RegOp where
  | register (websocket : WS) (admin_username : String)
  | unregister (websocket : WS) (admin_username : String)
deriving Repr, DecidableEq

/-- Apply one registry operation. -/
def applyOp (cm : ConnectionManager) : RegOp → ConnectionManager
  | RegOp.register w a => cm.connect w a
  | RegOp.unregister w a => cm.disconnect w a

/-- Run a sequence of registry operations. -/
def applyOps (cm : ConnectionManager) (ops : List RegOp) : ConnectionManager :=
  ops.foldl applyOp cm

/-- C1: the spec's invariant "`Count()` always equals the total number of
currently-registered (identity, connection) pairs" is violated by the code.
After `Register(1,"a")`, `Register(2,"a")`, `Unregister(1,"a")`,
`Unregister(1,"a")` (a double unregister, which the spec itself calls a
supported idempotent cleanup), `connection_count` is 0 while the pair
`("a", 2)` is still registered: `disconnect` decrements the counter whenever
the identity key exists, even though `discard` removed nothing, contradicting
`get_connection_count`'s own docstring ("the total number of active
connections").  This theorem evaluates the code at that failing sequence. -/
theorem C1_count_invariant_fails_eval :
    (applyOps emptyCM [RegOp.register 1 "a", RegOp.register 2 "a",
      RegOp.unregister 1 "a", RegOp.unregister 1 "a"]).get_connection_count = 0 ∧
    (applyOps emptyCM [RegOp.register 1 "a", RegOp.register 2 "a",
      RegOp.unregister 1 "a", RegOp.unregister 1 "a"]).pairs = [("a", 2)] := by
  constructor <;> rfl

/-- C2: "decrements total count only if removal actually occurred" is violated
by the code.  From the state {"a" ↦ {1, 2}} with count 2, `disconnect(5, "a")`
removes nothing (the mapping is unchanged, as the claim's no-op part states),
yet the count drops to 1: the decrement is unconditional once the identity key
exists.  This theorem evaluates the code at that failing input. -/
theorem C2_decrement_without_removal_eval :
    (ConnectionManager.disconnect ⟨[("a", [1, 2])], 2⟩ 5 "a").active_connections
      = [("a", [1, 2])] ∧
    (ConnectionManager.disconnect ⟨[("a", [1, 2])], 2⟩ 5 "a").connection_count = 1 := by
  constructor <;> rfl

/-! ### Broadcast fan-out (src/websocket_manager.py, lines 64-88) -/

/-- The guard `if exclude_admin and admin_username == exclude_admin: continue`
(line 76).  Python truthiness: `None` and the empty string are falsy, so the
comparison is reached only for a non-empty `exclude_admin`. -/
def excludeSkips (exclude_admin : Option String) (admin_username : String) : Bool :=
  match exclude_admin with
  | none => false
  | some e => if e = "" then false else admin_username == e

/-- The (identity, connection) pairs the fan-out loop attempts to send to, in
iteration order: every connection of every non-skipped admin (lines 74-81,
`for admin_username, connections in ...: for connection in connections.copy()`). -/
def ConnectionManager.broadcastAttempts (cm : ConnectionManager)
    (exclude_admin : Option String) : List (String × WS) :=
  cm.active_connections.flatMap fun e =>
    if excludeSkips exclude_admin e.1 then [] else e.2.map fun w => (e.1, w)

/-- Attempted pairs whose `send_json` succeeded (`fails` says which connection
handles raise on send). -/
def ConnectionManager.broadcastDelivered (cm : ConnectionManager)
    (exclude_admin : Option String) (fails : WS → Bool) : List (String × WS) :=
  (cm.broadcastAttempts exclude_admin).filter fun p => !(fails p.2)

/-- The `disconnected` list built by the loop (line 84 appends
`(connection, admin_username)` on a send failure). -/
def ConnectionManager.broadcastFailed (cm : ConnectionManager)
    (exclude_admin : Option String) (fails : WS → Bool) : List (WS × String) :=
  ((cm.broadcastAttempts exclude_admin).filter fun p => fails p.2).map fun p => (p.2, p.1)

/-- Registry state after `broadcast` returns: the cleanup loop (lines 87-88)
calls `disconnect` for every recorded failure. -/
def ConnectionManager.broadcast (cm : ConnectionManager)
    (exclude_admin : Option String) (fails : WS → Bool) : ConnectionManager :=
  (cm.broadcastFailed exclude_admin fails).foldl (fun s q => s.disconnect q.1 q.2) cm

/-! ### Association-list lemmas -/

theorem mem_pairsOf_of_dictLookup (d : List (String × List WS)) (k : String)
    (s : List WS) (h : dictLookup d k = some s) (w : WS) (hw : w ∈ s) :
    (k, w) ∈ pairsOf d := by
  induction d with
  | nil => simp [dictLookup] at h
  | cons hd tl ih =>
    simp only [dictLookup] at h
    by_cases hk : hd.1 = k
    · rw [if_pos hk] at h
      injection h with h
      subst h
      simp only [pairsOf, List.flatMap_cons, List.mem_append, List.mem_map]
      exact Or.inl ⟨w, hw, by rw [hk]⟩
    · rw [if_neg hk] at h
      simp only [pairsOf, List.flatMap_cons, List.mem_append]
      exact Or.inr (ih h)

theorem pairsOf_dictDel_subset (d : List (String × List WS)) (k : String) :
    pairsOf (dictDel d k) ⊆ pairsOf d := by
  induction d with
  | nil => simp [dictDel]
  | cons hd tl ih =>
    simp only [dictDel]
    by_cases h : hd.1 = k
    · rw [if_pos h]
      simp only [pairsOf, List.flatMap_cons]
      exact List.subset_append_right _ _
    · rw [if_neg h]
      simp only [pairsOf, List.flatMap_cons]
      intro x hx
      rcases List.mem_append.1 hx with h1 | h2
      · exact List.mem_append_left _ h1
      · exact List.mem_append_right _ (ih h2)

theorem pairsOf_dictSet_subset (d : List (String × List WS)) (k : String)
    (v : List WS) (h : ∀ w ∈ v, (k, w) ∈ pairsOf d) :
    pairsOf (dictSet d k v) ⊆ pairsOf d := by
  induction d with
  | nil =>
    intro x hx
    simp only [dictSet, pairsOf, List.flatMap_cons, List.flatMap_nil,
      List.append_nil, List.mem_map] at hx
    obtain ⟨w, hw, rfl⟩ := hx
    exact h w hw
  | cons hd tl ih =>
    simp only [dictSet]
    by_cases hk : hd.1 = k
    · rw [if_pos hk]
      intro x hx
      simp only [pairsOf, List.flatMap_cons, List.mem_append, List.mem_map] at hx
      rcases hx with ⟨w, hw, rfl⟩ | h2
      · exact h w hw
      · simp only [pairsOf, List.flatMap_cons, List.mem_append]
        exact Or.inr h2
    · rw [if_neg hk]
      intro x hx
      simp only [pairsOf, List.flatMap_cons, List.mem_append] at hx ⊢
      rcases hx with h1 | h2
      · exact Or.inl h1
      · refine Or.inr (ih ?_ h2)
        intro w hw
        have hm := h w hw
        simp only [pairsOf, List.flatMap_cons, List.mem_append, List.mem_map] at hm
        rcases hm with ⟨w', _, hww⟩ | hm2
        · exact absurd (congrArg Prod.fst hww) hk
        · exact hm2

theorem keys_dictDel_subset (d : List (String × List WS)) (k : String) :
    (dictDel d k).map Prod.fst ⊆ d.map Prod.fst := by
  induction d with
  | nil => simp [dictDel]
  | cons hd tl ih =>
    simp only [dictDel]
    by_cases h : hd.1 = k
    · rw [if_pos h]
      simp only [List.map_cons]
      exact List.subset_cons_self _ _
    · rw [if_neg h]
      simp only [List.map_cons]
      exact List.cons_subset_cons _ ih

theorem keys_dictSet_of_lookup (d : List (String × List WS)) (k : String)
    (s v : List WS) (h : dictLookup d k = some s) :
    (dictSet d k v).map Prod.fst = d.map Prod.fst := by
  induction d with
  | nil => simp [dictLookup] at h
  | cons hd tl ih =>
    simp only [dictLookup] at h
    simp only [dictSet]
    by_cases hk : hd.1 = k
    · rw [if_pos hk]
      simp [hk]
    · rw [if_neg hk] at h ⊢
      simp [ih h]

theorem pairs_disconnect_subset (cm : ConnectionManager) (w : WS) (a : String) :
    (cm.disconnect w a).pairs ⊆ cm.pairs := by
  unfold ConnectionManager.disconnect
  cases h : dictLookup cm.active_connections a with
  | none => exact fun x hx => hx
  | some s =>
    simp only [ConnectionManager.pairs]
    by_cases h1 : s.erase w = []
    · rw [if_pos h1]
      exact pairsOf_dictDel_subset _ _
    · rw [if_neg h1]
      refine pairsOf_dictSet_subset _ _ _ ?_
      intro w' hw'
      exact mem_pairsOf_of_dictLookup _ _ _ h w' (List.erase_subset _ _ hw')

theorem admins_disconnect_subset (cm : ConnectionManager) (w : WS) (a : String) :
    (cm.disconnect w a).get_connected_admins ⊆ cm.get_connected_admins := by
  unfold ConnectionManager.disconnect
  cases h : dictLookup cm.active_connections a with
  | none => exact fun x hx => hx
  | some s =>
    simp only [ConnectionManager.get_connected_admins]
    by_cases h1 : s.erase w = []
    · rw [if_pos h1]
      exact keys_dictDel_subset _ _
    · rw [if_neg h1]
      rw [keys_dictSet_of_lookup _ _ s _ h]
      exact fun x hx => hx

theorem count_disconnect_le (cm : ConnectionManager) (w : WS) (a : String) :
    (cm.disconnect w a).connection_count ≤ cm.connection_count := by
  unfold ConnectionManager.disconnect
  cases h : dictLookup cm.active_connections a with
  | none => exact le_refl _
  | some s => simp only; omega

theorem pairs_cleanup_subset (L : List (WS × String)) (cm : ConnectionManager) :
    (L.foldl (fun s q => s.disconnect q.1 q.2) cm).pairs ⊆ cm.pairs := by
  induction L generalizing cm with
  | nil => exact fun x hx => hx
  | cons hd tl ih =>
    simp only [List.foldl_cons]
    exact (ih _).trans (pairs_disconnect_subset _ _ _)

theorem admins_cleanup_subset (L : List (WS × String)) (cm : ConnectionManager) :
    (L.foldl (fun s q => s.disconnect q.1 q.2) cm).get_connected_admins
      ⊆ cm.get_connected_admins := by
  induction L generalizing cm with
  | nil => exact fun x hx => hx
  | cons hd tl ih =>
    simp only [List.foldl_cons]
    exact (ih _).trans (admins_disconnect_subset _ _ _)

theorem count_cleanup_le (L : List (WS × String)) (cm : ConnectionManager) :
    (L.foldl (fun s q => s.disconnect q.1 q.2) cm).connection_count
      ≤ cm.connection_count := by
  induction L generalizing cm with
  | nil => exact le_refl _
  | cons hd tl ih =>
    simp only [List.foldl_cons]
    exact (ih _).trans (count_disconnect_le _ _ _)

/-- C10: `broadcast` only ever shrinks the registry — every surviving
(identity, connection) pair was registered before the call, no identity is
added, and the connection count never increases. -/
theorem C10_broadcast_only_shrinks (cm : ConnectionManager)
    (exclude_admin : Option String) (fails : WS → Bool) :
    (cm.broadcast exclude_admin fails).pairs ⊆ cm.pairs ∧
    (cm.broadcast exclude_admin fails).get_connected_admins
      ⊆ cm.get_connected_admins ∧
    (cm.broadcast exclude_admin fails).get_connection_count
      ≤ cm.get_connection_count :=
  ⟨pairs_cleanup_subset _ _, admins_cleanup_subset _ _, count_cleanup_le _ _⟩

/-! ### C5 — exclusion semantics of the fan-out -/

theorem filter_fst_map (cs : List WS) (a : String) (q : String → Bool) :
    ((cs.map fun w => (a, w)).filter fun p => q p.1)
      = if q a then cs.map fun w => (a, w) else [] := by
  induction cs with
  | nil => cases h : q a <;> simp
  | cons c cs ih =>
    cases h : q a
    · simp only [h] at ih
      simp [List.filter_cons, h, ih]
    · simp only [h] at ih
      simp [List.filter_cons, h, ih]

theorem attemptsOf_truthy (d : List (String × List WS)) (e : String) (he : e ≠ "") :
    (d.flatMap fun en =>
        if excludeSkips (some e) en.1 then [] else en.2.map fun w => (en.1, w))
      = (pairsOf d).filter fun p => !(p.1 == e) := by
  induction d with
  | nil => rfl
  | cons hd tl ih =>
    have hhead : (if excludeSkips (some e) hd.1 then ([] : List (String × WS))
        else hd.2.map fun w => (hd.1, w))
        = (hd.2.map fun w => (hd.1, w)).filter fun p => !(p.1 == e) := by
      have hf := filter_fst_map hd.2 hd.1 (fun x => !(x == e))
      rw [hf]
      simp only [excludeSkips, if_neg he]
      cases h : (hd.1 == e) <;> simp [h]
    simp only [pairsOf, List.flatMap_cons, List.filter_append] at *
    rw [hhead, ih]

/-- C5, as the spec states it: for every registry state and every
`excludeIdentity` string (the empty string included), the fan-out skips exactly
the connections owned by `excludeIdentity`. -/
def C5Claim : Prop :=
  ∀ (cm : ConnectionManager) (e : String),
    (∀ p ∈ cm.broadcastAttempts (some e), p.1 ≠ e) ∧
    (∀ p ∈ cm.pairs, p.1 ≠ e → p ∈ cm.broadcastAttempts (some e))

/-- C5 is false at `excludeIdentity = ""`: with the registry {"" ↦ {7}},
`broadcast(event, exclude_admin="")` still attempts delivery to connection 7,
because the guard `if exclude_admin and ...` treats the empty string as falsy
and never reaches the comparison. -/
theorem C5_counterexample_empty_string : ¬ C5Claim := by
  intro h
  exact (h ⟨[("", [7])], 1⟩ "").1 ("", 7) (by decide) rfl

/-- C5 amended: for every non-empty (truthy) `excludeIdentity`, the fan-out
attempts exactly the registered pairs of other identities; for
`excludeIdentity` empty or absent, no connection is excluded and every
registered pair is attempted. -/
theorem C5_exclusion_requires_truthy (cm : ConnectionManager) (e : String)
    (he : e ≠ "") :
    cm.broadcastAttempts (some e) = cm.pairs.filter (fun p => !(p.1 == e)) ∧
    cm.broadcastAttempts (some "") = cm.pairs ∧
    cm.broadcastAttempts none = cm.pairs := by
  refine ⟨attemptsOf_truthy _ _ he, ?_, ?_⟩ <;>
    simp [ConnectionManager.broadcastAttempts, ConnectionManager.pairs, pairsOf,
      excludeSkips]

/-- Witness for C5's amended theorem at a concrete registry and a concrete
non-empty excluded identity. -/
theorem C5_exclusion_requires_truthy_witness :
    ("b" : String) ≠ "" ∧
    ((⟨[("a", [1]), ("b", [2])], 2⟩ : ConnectionManager).broadcastAttempts (some "b")
        = (⟨[("a", [1]), ("b", [2])], 2⟩ : ConnectionManager).pairs.filter
            (fun p => !(p.1 == "b")) ∧
      (⟨[("a", [1]), ("b", [2])], 2⟩ : ConnectionManager).broadcastAttempts (some "")
        = (⟨[("a", [1]), ("b", [2])], 2⟩ : ConnectionManager).pairs ∧
      (⟨[("a", [1]), ("b", [2])], 2⟩ : ConnectionManager).broadcastAttempts none
        = (⟨[("a", [1]), ("b", [2])], 2⟩ : ConnectionManager).pairs) :=
  ⟨by decide, C5_exclusion_requires_truthy ⟨[("a", [1]), ("b", [2])], 2⟩ "b" (by decide)⟩

/-! ### C3 — failure isolation of the broadcast fan-out -/

theorem attempts_none_eq (cm : ConnectionManager) :
    cm.broadcastAttempts none = cm.pairs := by
  simp [ConnectionManager.broadcastAttempts, ConnectionManager.pairs, pairsOf,
    excludeSkips]

theorem fst_mem_keys_of_mem_pairsOf (d : List (String × List WS))
    (p : String × WS) (hp : p ∈ pairsOf d) : p.1 ∈ d.map Prod.fst := by
  induction d with
  | nil => simp [pairsOf] at hp
  | cons hd tl ih =>
    simp only [pairsOf, List.flatMap_cons, List.mem_append, List.mem_map] at hp
    rcases hp with ⟨w, _, rfl⟩ | h2
    · simp
    · simp only [List.map_cons, List.mem_cons]
      exact Or.inr (ih h2)

theorem pairsOf_nodup (d : List (String × List WS))
    (hk : (d.map Prod.fst).Nodup) (hs : ∀ e ∈ d, e.2.Nodup) :
    (pairsOf d).Nodup := by
  induction d with
  | nil => simp [pairsOf]
  | cons hd tl ih =>
    simp only [List.map_cons, List.nodup_cons] at hk
    simp only [pairsOf, List.flatMap_cons, List.nodup_append]
    refine ⟨?_, ih hk.2 fun e he => hs e (List.mem_cons_of_mem _ he), ?_⟩
    · exact (hs hd (List.mem_cons_self _ _)).map fun x y h =>
        congrArg Prod.snd h
    · intro x hx1 hx2
      obtain ⟨w, _, rfl⟩ := List.mem_map.1 hx1
      exact hk.1 (fst_mem_keys_of_mem_pairsOf tl _ hx2)

theorem dictLookup_mem (d : List (String × List WS)) (k : String) (s : List WS)
    (h : dictLookup d k = some s) : (k, s) ∈ d := by
  induction d with
  | nil => simp [dictLookup] at h
  | cons hd tl ih =>
    simp only [dictLookup] at h
    by_cases hk : hd.1 = k
    · rw [if_pos hk] at h
      injection h with h
      subst h
      subst hk
      exact List.mem_cons_self _ _
    · rw [if_neg hk] at h
      exact List.mem_cons_of_mem _ (ih h)

theorem dictLookup_eq_none_of_not_mem (d : List (String × List WS)) (k : String)
    (h : k ∉ d.map Prod.fst) : dictLookup d k = none := by
  induction d with
  | nil => rfl
  | cons hd tl ih =>
    simp only [List.map_cons, List.mem_cons] at h
    push_neg at h
    have hne : hd.1 ≠ k := fun hh => h.1 hh.symm
    simp only [dictLookup]
    rw [if_neg hne]
    exact ih h.2

theorem dictLookup_dictDel_self (d : List (String × List WS)) (k : String)
    (hk : (d.map Prod.fst).Nodup) : dictLookup (dictDel d k) k = none := by
  induction d with
  | nil => rfl
  | cons hd tl ih =>
    simp only [List.map_cons, List.nodup_cons] at hk
    simp only [dictDel]
    by_cases h : hd.1 = k
    · rw [if_pos h]
      exact dictLookup_eq_none_of_not_mem _ _ (h ▸ hk.1)
    · rw [if_neg h]
      simp only [dictLookup, if_neg h]
      exact ih hk.2

theorem dictLookup_dictSet_self (d : List (String × List WS)) (k : String)
    (v : List WS) : dictLookup (dictSet d k v) k = some v := by
  induction d with
  | nil => simp [dictSet, dictLookup]
  | cons hd tl ih =>
    simp only [dictSet]
    by_cases h : hd.1 = k
    · rw [if_pos h]
      simp [dictLookup]
    · rw [if_neg h]
      simp only [dictLookup, if_neg h]
      exact ih

theorem keys_dictDel_sublist (d : List (String × List WS)) (k : String) :
    List.Sublist ((dictDel d k).map Prod.fst) (d.map Prod.fst) := by
  induction d with
  | nil => simp [dictDel]
  | cons hd tl ih =>
    simp only [dictDel]
    by_cases h : hd.1 = k
    · rw [if_pos h]
      simp only [List.map_cons]
      exact List.sublist_cons_self _ _
    · rw [if_neg h]
      simp only [List.map_cons]
      exact List.Sublist.cons₂ _ ih

theorem mem_dictDel (d : List (String × List WS)) (k : String)
    (e : String × List WS) (he : e ∈ dictDel d k) : e ∈ d := by
  induction d with
  | nil => simp [dictDel] at he
  | cons hd tl ih =>
    simp only [dictDel] at he
    by_cases h : hd.1 = k
    · rw [if_pos h] at he
      exact List.mem_cons_of_mem _ he
    · rw [if_neg h] at he
      rcases List.mem_cons.1 he with h1 | h2
      · exact h1 ▸ List.mem_cons_self _ _
      · exact List.mem_cons_of_mem _ (ih h2)

theorem mem_dictSet (d : List (String × List WS)) (k : String) (v : List WS)
    (e : String × List WS) (he : e ∈ dictSet d k v) : e ∈ d ∨ e = (k, v) := by
  induction d with
  | nil =>
    simp only [dictSet, List.mem_singleton] at he
    exact Or.inr he
  | cons hd tl ih =>
    simp only [dictSet] at he
    by_cases h : hd.1 = k
    · rw [if_pos h] at he
      rcases List.mem_cons.1 he with h1 | h2
      · exact Or.inr h1
      · exact Or.inl (List.mem_cons_of_mem _ h2)
    · rw [if_neg h] at he
      rcases List.mem_cons.1 he with h1 | h2
      · exact Or.inl (h1 ▸ List.mem_cons_self _ _)
      · rcases ih h2 with h3 | h3
        · exact Or.inl (List.mem_cons_of_mem _ h3)
        · exact Or.inr h3

theorem disconnect_lookup_none (cm : ConnectionManager) (w : WS) (a : String)
    (h : dictLookup cm.active_connections a = none) : cm.disconnect w a = cm := by
  unfold ConnectionManager.disconnect
  rw [h]

theorem disconnect_lookup_some (cm : ConnectionManager) (w : WS) (a : String)
    (s : List WS) (h : dictLookup cm.active_connections a = some s) :
    cm.disconnect w a =
      { active_connections :=
          if s.erase w = [] then dictDel cm.active_connections a
          else dictSet cm.active_connections a (s.erase w),
        connection_count := cm.connection_count - 1 } := by
  unfold ConnectionManager.disconnect
  rw [h]

theorem WF_disconnect (cm : ConnectionManager) (w : WS) (a : String)
    (hwf : WF cm) : WF (cm.disconnect w a) := by
  obtain ⟨hk, hs⟩ := hwf
  cases h : dictLookup cm.active_connections a with
  | none =>
    rw [disconnect_lookup_none _ _ _ h]
    exact ⟨hk, hs⟩
  | some s =>
    rw [disconnect_lookup_some _ _ _ _ h]
    have hsnd : s.Nodup := hs (a, s) (dictLookup_mem _ _ _ h)
    by_cases h1 : s.erase w = []
    · rw [if_pos h1]
      refine ⟨List.Nodup.sublist (keys_dictDel_sublist _ _) hk, ?_⟩
      intro e he
      exact hs e (mem_dictDel _ _ _ he)
    · rw [if_neg h1]
      refine ⟨by rw [keys_dictSet_of_lookup _ _ s _ h]; exact hk, ?_⟩
      intro e he
      rcases mem_dictSet _ _ _ _ he with h2 | h2
      · exact hs e h2
      · rw [h2]
        exact hsnd.erase _

theorem dictLookup_of_mem_pairsOf (d : List (String × List WS))
    (hk : (d.map Prod.fst).Nodup) (k : String) (w : WS)
    (hp : (k, w) ∈ pairsOf d) :
    ∃ s, dictLookup d k = some s ∧ w ∈ s := by
  induction d with
  | nil => simp [pairsOf] at hp
  | cons hd tl ih =>
    simp only [List.map_cons, List.nodup_cons] at hk
    simp only [pairsOf, List.flatMap_cons, List.mem_append, List.mem_map] at hp
    rcases hp with ⟨w', hw', heq⟩ | h2
    · have h1 : hd.1 = k := congrArg Prod.fst heq
      have h2 : w' = w := congrArg Prod.snd heq
      refine ⟨hd.2, ?_, h2 ▸ hw'⟩
      simp [dictLookup, if_pos h1]
    · obtain ⟨s, hls, hws⟩ := ih hk.2 h2
      have hne : hd.1 ≠ k := by
        intro hh
        exact hk.1 (hh ▸ fst_mem_keys_of_mem_pairsOf tl (k, w) h2)
      exact ⟨s, by simp [dictLookup, if_neg hne, hls], hws⟩

theorem not_mem_pairs_disconnect (cm : ConnectionManager) (w : WS) (a : String)
    (hwf : WF cm) : (a, w) ∉ (cm.disconnect w a).pairs := by
  obtain ⟨hk, hs⟩ := hwf
  cases h : dictLookup cm.active_connections a with
  | none =>
    rw [disconnect_lookup_none _ _ _ h]
    intro hmem
    obtain ⟨s, hls, _⟩ := dictLookup_of_mem_pairsOf _ hk _ _ hmem
    rw [h] at hls
    exact Option.noConfusion hls
  | some s =>
    rw [disconnect_lookup_some _ _ _ _ h]
    have hsnd : s.Nodup := hs (a, s) (dictLookup_mem _ _ _ h)
    by_cases h1 : s.erase w = []
    · rw [if_pos h1]
      intro hmem
      simp only [ConnectionManager.pairs] at hmem
      obtain ⟨t, hls, _⟩ := dictLookup_of_mem_pairsOf _
        (List.Nodup.sublist (keys_dictDel_sublist _ _) hk) _ _ hmem
      rw [dictLookup_dictDel_self _ _ hk] at hls
      exact Option.noConfusion hls
    · rw [if_neg h1]
      intro hmem
      simp only [ConnectionManager.pairs] at hmem
      have hkeys : ((dictSet cm.active_connections a (s.erase w)).map Prod.fst).Nodup := by
        rw [keys_dictSet_of_lookup _ _ s _ h]
        exact hk
      obtain ⟨t, hls, hwt⟩ := dictLookup_of_mem_pairsOf _ hkeys _ _ hmem
      rw [dictLookup_dictSet_self] at hls
      injection hls with hls
      rw [← hls] at hwt
      exact (hsnd.mem_erase_iff.1 hwt).1 rfl

theorem cleanup_removes (L : List (WS × String)) (cm : ConnectionManager)
    (hwf : WF cm) (pr : WS × String) (hpr : pr ∈ L) :
    (pr.2, pr.1) ∉ (L.foldl (fun s q => s.disconnect q.1 q.2) cm).pairs := by
  induction L generalizing cm with
  | nil => simp at hpr
  | cons hd tl ih =>
    simp only [List.foldl_cons]
    rcases List.mem_cons.1 hpr with h1 | h2
    · subst h1
      intro hmem
      exact not_mem_pairs_disconnect cm pr.1 pr.2 hwf
        (pairs_cleanup_subset tl _ hmem)
    · exact ih _ (WF_disconnect _ _ _ hwf) h2

/-- C3: for a well-formed registry and any set of failing connections,
the fan-out (with no excluded identity) delivers the event exactly once to
every registered pair whose send succeeds, delivers nothing to a failing pair,
and every failing pair is absent from the registry once `broadcast` returns
(the per-send `try/except` means one failure never aborts the others, and
`broadcast` itself propagates no error). -/
theorem C3_broadcast_failure_isolation (cm : ConnectionManager)
    (fails : WS → Bool) (hwf : WF cm) :
    (∀ p ∈ cm.pairs, fails p.2 = false →
      (cm.broadcastDelivered none fails).countP (fun q => decide (q = p)) = 1) ∧
    (∀ p ∈ cm.pairs, fails p.2 = true →
      p ∉ cm.broadcastDelivered none fails) ∧
    (∀ p ∈ cm.pairs, fails p.2 = true →
      p ∉ (cm.broadcast none fails).pairs) := by
  have hatt : cm.broadcastAttempts none = cm.pairs := attempts_none_eq cm
  have hnd : cm.pairs.Nodup := pairsOf_nodup _ hwf.1 hwf.2
  refine ⟨?_, ?_, ?_⟩
  · intro p hp hf
    have hmem : p ∈ cm.broadcastDelivered none fails := by
      unfold ConnectionManager.broadcastDelivered
      rw [hatt]
      exact List.mem_filter.2 ⟨hp, by simp [hf]⟩
    have hndd : (cm.broadcastDelivered none fails).Nodup := by
      unfold ConnectionManager.broadcastDelivered
      rw [hatt]
      exact hnd.filter _
    exact List.count_eq_one_of_mem hndd hmem

  · intro p _ hf hmem
    unfold ConnectionManager.broadcastDelivered at hmem
    have := (List.mem_filter.1 hmem).2
    simp [hf] at this
  · intro p hp hf
    have hfail : (p.2, p.1) ∈ cm.broadcastFailed none fails := by
      unfold ConnectionManager.broadcastFailed
      rw [hatt]
      exact List.mem_map.2 ⟨p, List.mem_filter.2 ⟨hp, hf⟩, rfl⟩
    have := cleanup_removes _ cm hwf (p.2, p.1) hfail
    simpa using this

/-- Witness for C3 at a concrete registry where connection 2 fails. -/
theorem C3_broadcast_failure_isolation_witness :
    WF ⟨[("a", [1, 2]), ("b", [3])], 3⟩ ∧
    ((∀ p ∈ (⟨[("a", [1, 2]), ("b", [3])], 3⟩ : ConnectionManager).pairs,
        (fun w => w == 2) p.2 = false →
        ((⟨[("a", [1, 2]), ("b", [3])], 3⟩ : ConnectionManager).broadcastDelivered
            none (fun w => w == 2)).countP (fun q => decide (q = p)) = 1) ∧
      (∀ p ∈ (⟨[("a", [1, 2]), ("b", [3])], 3⟩ : ConnectionManager).pairs,
        (fun w => w == 2) p.2 = true →
        p ∉ (⟨[("a", [1, 2]), ("b", [3])], 3⟩ : ConnectionManager).broadcastDelivered
            none (fun w => w == 2)) ∧
      (∀ p ∈ (⟨[("a", [1, 2]), ("b", [3])], 3⟩ : ConnectionManager).pairs,
        (fun w => w == 2) p.2 = true →
        p ∉ ((⟨[("a", [1, 2]), ("b", [3])], 3⟩ : ConnectionManager).broadcast
            none (fun w => w == 2)).pairs)) :=
  ⟨by decide, C3_broadcast_failure_isolation ⟨[("a", [1, 2]), ("b", [3])], 3⟩
    (fun w => w == 2) (by decide)⟩

/-! ### Unicast send (src/websocket_manager.py, lines 57-62) -/

/-- Transport send `websocket.send_json`: succeeds or raises, depending on the transport. -/
def send_json (sendOk : Bool) : Except String Unit :=
  if sendOk then Except.ok () else Except.error "send failed"

/-- Model of `ConnectionManager.send_personal_message` (src/websocket_manager.py,
lines 57-62): `try: await websocket.send_json(message) except Exception as e:
logger.error(...)` — the exception is swallowed and the registry (`self`) is
never touched. -/
def send_personal_message (cm : ConnectionManager) (sendOk : Bool) :
    Except String ConnectionManager :=
  match send_json sendOk with
  | Except.ok _ => Except.ok cm
  | Except.error _ => Except.ok cm

/-- C9: `send_personal_message` never propagates an exception of the
underlying send, and a failed unicast leaves the registry mapping and the
connection count completely unchanged (the method never unregisters the
connection itself). -/
theorem C9_send_personal_never_raises (cm : ConnectionManager) (sendOk : Bool) :
    send_personal_message cm sendOk = Except.ok cm := by
  cases sendOk <;> rfl

/-! ### The `/ws/admin` session handler (src/main.py, lines 556-616)

The inbound side of the authenticated receive loop.  A raw text frame is
abstracted by what `json.loads` plus the `type` dispatch make of it; each
received frame carries its arrival time and the wall-clock value
`datetime.now()` read while processing it. -/

/-- Result of parsing one inbound frame (src/main.py, lines 564-606):
`malformed` models a `json.JSONDecodeError`, `otherJson` a well-formed message
whose `type` is neither `ping` nor `request_stats`. -/
inductive ClientMessage where
  | malformed
  | ping
  | requestStats
  | otherJson
deriving Repr, DecidableEq

/-- One step of the session: a received frame (with arrival and processing
clock values), a transport closure (`WebSocketDisconnect` raised by
`receive_text`), or any other exception raised while processing a message
(e.g. a failing `send_json` reply or a database error, which is not a
`json.JSONDecodeError` and not a `WebSocketDisconnect`). -/
inductive SessionEvent where
  | recv (m : ClientMessage) (arrival : Nat) (procTime : Nat)
  | closed
  | raised
deriving Repr, DecidableEq

/-- Messages the handler can emit to its own connection. -/
inductive Outbound where
  | connectionEstablished (t : Nat)
  | pong (t : Nat)
  | statsUpdate (t : Nat)
deriving Repr, DecidableEq

/-- Observable actions of one session, in program order. -/
inductive Action where
  | accepted
  | registered (admin : String) (ws : WS)
  | sent (o : Outbound)
  | unregistered (admin : String) (ws : WS)
deriving Repr, DecidableEq

/-- Replies produced for one inbound frame (src/main.py, lines 564-606):
`ping` gets one `pong` stamped with `datetime.now()`; `request_stats` gets one
stats unicast; malformed JSON is swallowed by `except json.JSONDecodeError:
pass`; any other JSON produces nothing. -/
def handleMessage (m : ClientMessage) (procTime : Nat) : List Outbound :=
  match m with
  | ClientMessage.ping => [Outbound.pong procTime]
  | ClientMessage.requestStats => [Outbound.statsUpdate procTime]
  | ClientMessage.malformed => []
  | ClientMessage.otherJson => []

/-- The `while True` receive loop with its exception routing (src/main.py,
lines 557-612): frames are processed in order; `WebSocketDisconnect` is caught
by the inner `except WebSocketDisconnect`, which calls
`ws_manager.disconnect(websocket, admin_username)` and falls out; any other
exception propagates to the outer `except Exception`, which only closes the
socket — it never calls `disconnect`. -/
def runLoop (cm : ConnectionManager) (admin : String) (ws : WS) :
    List SessionEvent → ConnectionManager × List Action
  | [] => (cm, [])
  | SessionEvent.recv m _ pt :: rest =>
    let out := (handleMessage m pt).map Action.sent
    let r := runLoop cm admin ws rest
    (r.1, out ++ r.2)
  | SessionEvent.closed :: _ =>
    (cm.disconnect ws admin, [Action.unregistered admin ws])
  | SessionEvent.raised :: _ => (cm, [])

/-- A session that passed authentication (src/main.py, line 555 onwards):
`ws_manager.connect` accepts the socket, registers the pair, and unicasts the
`connection_established` acknowledgment (src/websocket_manager.py,
lines 23-43; the ack send is initiated before any other coroutine can run,
there being no await point between registration and the send call), then the
receive loop runs. -/
def runSession (cm : ConnectionManager) (admin : String) (ws : WS) (t0 : Nat)
    (evs : List SessionEvent) : ConnectionManager × List Action :=
  let cm1 := cm.connect ws admin
  let r := runLoop cm1 admin ws evs
  (r.1, Action.accepted :: Action.registered admin ws ::
    Action.sent (Outbound.connectionEstablished t0) :: r.2)

/-- Is this action an `Unregister` call? -/
def isUnregisterCall : Action → Bool
  | Action.unregistered _ _ => true
  | _ => false

/-- Is this action the `connection_established` acknowledgment? -/
def isAck : Action → Bool
  | Action.sent (Outbound.connectionEstablished _) => true
  | _ => false

/-- Outbound payload of a send action, if any. -/
def sentOf : Action → Option Outbound
  | Action.sent o => some o
  | _ => none

/-- Timestamps of the `pong` replies in a trace, in order. -/
def pongTimes (acts : List Action) : List Nat :=
  acts.filterMap fun a =>
    match a with
    | Action.sent (Outbound.pong t) => some t
    | _ => none

/-- Is this event a received frame (as opposed to a loop terminator)? -/
def isRecv : SessionEvent → Bool
  | SessionEvent.recv _ _ _ => true
  | _ => false

/-- Processing-clock values of the `ping` frames in an event list, in order. -/
def pingProcTimes (evs : List SessionEvent) : List Nat :=
  evs.filterMap fun e =>
    match e with
    | SessionEvent.recv ClientMessage.ping _ pt => some pt
    | _ => none

/-- How the receive loop terminates, if it does: `some true` for a transport
closure (`WebSocketDisconnect`), `some false` for any other raised error,
`none` while the session is still running. -/
def exitKind : List SessionEvent → Option Bool
  | [] => none
  | SessionEvent.recv _ _ _ :: rest => exitKind rest
  | SessionEvent.closed :: _ => some true
  | SessionEvent.raised :: _ => some false

/-- Clock sanity of one event: a frame is processed no earlier than it
arrived. -/
def recvMono : SessionEvent → Bool
  | SessionEvent.recv _ ar pt => ar ≤ pt
  | _ => true

/-! ### C7 — malformed inbound frames are ignored -/

/-- C7: a malformed (non-parseable) inbound frame is silently swallowed: the
run of the loop on `malformed :: rest` equals the run on `rest` alone — no
outbound reply, registry and `Count()` unchanged, loop continues. -/
theorem C7_malformed_is_noop (cm : ConnectionManager) (admin : String) (ws : WS)
    (ar pt : Nat) (rest : List SessionEvent) :
    runLoop cm admin ws (SessionEvent.recv ClientMessage.malformed ar pt :: rest)
      = runLoop cm admin ws rest ∧
    (runLoop cm admin ws [SessionEvent.recv ClientMessage.malformed ar pt]).2 = [] ∧
    (runLoop cm admin ws
        [SessionEvent.recv ClientMessage.malformed ar pt]).1.get_connection_count
      = cm.get_connection_count := by
  refine ⟨?_, rfl, rfl⟩
  simp [runLoop, handleMessage]

/-! ### C4 — cleanup on loop exit -/

/-- C4, as the spec states it: on every exit route of the receive loop of a
registered session — transport closure or any error raised while processing a
message — `Unregister` is called exactly once. -/
def C4Claim : Prop :=
  ∀ (cm : ConnectionManager) (admin : String) (ws : WS) (t0 : Nat)
    (evs : List SessionEvent), (exitKind evs).isSome →
    ((runSession cm admin ws t0 evs).2.countP isUnregisterCall) = 1

/-- C4 is false: a session that terminates because an error other than
`WebSocketDisconnect` is raised while processing an inbound message (here: a
`ping` whose `pong` send raises) never calls `Unregister` — the outer
`except Exception` only closes the socket, so the registration leaks. -/
theorem C4_counterexample_error_exit : ¬ C4Claim := by
  intro h
  exact absurd
    (h emptyCM "a" 1 0 [SessionEvent.recv ClientMessage.ping 0 1,
      SessionEvent.raised] (by decide))
    (by decide)

/-- C4 amended: `Unregister` is called exactly once when and only when the
loop exits via `WebSocketDisconnect` (transport closure / client disconnect);
on any other error exit — and while the session is still running — it is
called zero times and the registration made by `connect` is left in place. -/
theorem C4_unregister_only_on_transport_close (cm : ConnectionManager)
    (admin : String) (ws : WS) (t0 : Nat) (evs : List SessionEvent) :
    ((runSession cm admin ws t0 evs).2.countP isUnregisterCall)
      = (if exitKind evs = some true then 1 else 0) ∧
    ((runSession cm admin ws t0 evs).1
      = if exitKind evs = some true
        then (cm.connect ws admin).disconnect ws admin
        else cm.connect ws admin) := by
  have key : ∀ (c : ConnectionManager) (l : List SessionEvent),
      ((runLoop c admin ws l).2.countP isUnregisterCall)
          = (if exitKind l = some true then 1 else 0) ∧
        ((runLoop c admin ws l).1
          = if exitKind l = some true then c.disconnect ws admin else c) := by
    intro c l
    induction l with
    | nil => simp [runLoop, exitKind]
    | cons hd tl ih =>
      cases hd with
      | recv m ar pt =>
        refine ⟨?_, ?_⟩
        · simp only [runLoop, exitKind, List.countP_append, ih.1]
          have : ((handleMessage m pt).map Action.sent).countP isUnregisterCall = 0 := by
            cases m <;> rfl
          omega
        · simp only [runLoop, exitKind]
          exact ih.2
      | closed => simp [runLoop, exitKind, isUnregisterCall, List.countP_cons]
      | raised => simp [runLoop, exitKind]
  have h1 := key (cm.connect ws admin) evs
  constructor
  · simp only [runSession, List.countP_cons, h1.1]
    simp [isUnregisterCall]
  · simpa [runSession] using h1.2

/-! ### C6 — acknowledgment and ping/pong protocol -/

theorem mem_of_mem_takeWhileP {α : Type} (p : α → Bool) (l : List α) (x : α)
    (h : x ∈ l.takeWhile p) : x ∈ l := by
  induction l with
  | nil => simp at h
  | cons hd tl ih =>
    rw [List.takeWhile_cons] at h
    by_cases hp : p hd = true
    · rw [if_pos hp] at h
      rcases List.mem_cons.1 h with h1 | h2
      · exact h1 ▸ List.mem_cons_self _ _
      · exact List.mem_cons_of_mem _ (ih h2)
    · rw [if_neg hp] at h
      simp at h

/-- C6: for every session that authenticates successfully, the first action is
the transport accept followed by registration; the first message unicast to the
new connection is the single `connection_established` acknowledgment (so no
broadcast can precede it — delivery to the connection requires registration,
and the ack send is initiated atomically with it); the registration precedes
the ack in program order; and the `pong` replies are exactly one per processed
`ping`, stamped with the processing clock, which is at or after the `ping`'s
arrival whenever the clock is monotone across the trace. -/
theorem C6_ack_then_pong_per_ping (cm : ConnectionManager) (admin : String)
    (ws : WS) (t0 : Nat) (evs : List SessionEvent)
    (hmono : evs.all recvMono = true) :
    (runSession cm admin ws t0 evs).2.head? = some Action.accepted ∧
    ((runSession cm admin ws t0 evs).2.filterMap sentOf).head?
      = some (Outbound.connectionEstablished t0) ∧
    (runSession cm admin ws t0 evs).2.countP isAck = 1 ∧
    Action.registered admin ws
      ∈ (runSession cm admin ws t0 evs).2.takeWhile (fun a => !isAck a) ∧
    pongTimes (runSession cm admin ws t0 evs).2
      = pingProcTimes (evs.takeWhile isRecv) ∧
    (∀ t ∈ pongTimes (runSession cm admin ws t0 evs).2,
      ∃ ar, ar ≤ t ∧ SessionEvent.recv ClientMessage.ping ar t ∈ evs) := by
  have loopAck : ∀ (c : ConnectionManager) (l : List SessionEvent),
      (runLoop c admin ws l).2.countP isAck = 0 := by
    intro c l
    induction l with
    | nil => rfl
    | cons hd tl ih =>
      cases hd with
      | recv m ar pt =>
        simp only [runLoop, List.countP_append, ih]
        cases m <;> rfl
      | closed => rfl
      | raised => rfl
  have loopPong : ∀ (c : ConnectionManager) (l : List SessionEvent),
      pongTimes (runLoop c admin ws l).2 = pingProcTimes (l.takeWhile isRecv) := by
    intro c l
    induction l with
    | nil => rfl
    | cons hd tl ih =>
      cases hd with
      | recv m ar pt =>
        simp only [runLoop, pongTimes, List.filterMap_append]
        have htw : (SessionEvent.recv m ar pt :: tl).takeWhile isRecv
            = SessionEvent.recv m ar pt :: tl.takeWhile isRecv := by
          simp [List.takeWhile_cons, isRecv]
        rw [htw]
        simp only [pingProcTimes, List.filterMap_cons]
        cases m <;> simp_all [pongTimes, pingProcTimes, handleMessage, sentOf]
      | closed => rfl
      | raised => rfl
  have hpt : pongTimes (runSession cm admin ws t0 evs).2
      = pingProcTimes (evs.takeWhile isRecv) := by
    simp only [runSession, pongTimes, List.filterMap_cons]
    exact loopPong _ _
  refine ⟨rfl, rfl, ?_, ?_, hpt, ?_⟩
  · simp only [runSession, List.countP_cons]
    rw [loopAck]
    rfl
  · simp only [runSession]
    rw [List.takeWhile_cons, List.takeWhile_cons]
    simp [isAck]
  · intro t ht
    rw [hpt] at ht
    simp only [pingProcTimes, List.mem_filterMap] at ht
    obtain ⟨e, he, hsome⟩ := ht
    have hevs : e ∈ evs := mem_of_mem_takeWhileP _ _ _ he
    cases e with
    | recv m ar pt =>
      cases m with
      | ping =>
        injection hsome with hsome
        subst hsome
        refine ⟨ar, ?_, hevs⟩
        have := List.all_eq_true.1 hmono _ hevs
        simpa [recvMono] using this
      | malformed => exact Option.noConfusion hsome
      | requestStats => exact Option.noConfusion hsome
      | otherJson => exact Option.noConfusion hsome
    | closed => exact Option.noConfusion hsome
    | raised => exact Option.noConfusion hsome

/-- Witness for C6 on a concrete session trace: a ping arriving at time 2,
processed at time 3, then a client disconnect. -/
theorem C6_ack_then_pong_per_ping_witness :
    ([SessionEvent.recv ClientMessage.ping 2 3, SessionEvent.closed].all recvMono
      = true) ∧
    ((runSession emptyCM "a" 1 0 [SessionEvent.recv ClientMessage.ping 2 3,
        SessionEvent.closed]).2.head? = some Action.accepted ∧
      ((runSession emptyCM "a" 1 0 [SessionEvent.recv ClientMessage.ping 2 3,
          SessionEvent.closed]).2.filterMap sentOf).head?
        = some (Outbound.connectionEstablished 0) ∧
      (runSession emptyCM "a" 1 0 [SessionEvent.recv ClientMessage.ping 2 3,
        SessionEvent.closed]).2.countP isAck = 1 ∧
      Action.registered "a" 1
        ∈ (runSession emptyCM "a" 1 0 [SessionEvent.recv ClientMessage.ping 2 3,
            SessionEvent.closed]).2.takeWhile (fun a => !isAck a) ∧
      pongTimes (runSession emptyCM "a" 1 0 [SessionEvent.recv ClientMessage.ping 2 3,
          SessionEvent.closed]).2
        = pingProcTimes ([SessionEvent.recv ClientMessage.ping 2 3,
            SessionEvent.closed].takeWhile isRecv) ∧
      (∀ t ∈ pongTimes (runSession emptyCM "a" 1 0
          [SessionEvent.recv ClientMessage.ping 2 3, SessionEvent.closed]).2,
        ∃ ar, ar ≤ t ∧ SessionEvent.recv ClientMessage.ping ar t
          ∈ [SessionEvent.recv ClientMessage.ping 2 3, SessionEvent.closed])) :=
  ⟨by decide, C6_ack_then_pong_per_ping emptyCM "a" 1 0
    [SessionEvent.recv ClientMessage.ping 2 3, SessionEvent.closed] (by decide)⟩

/-! ### C8 — live dict iteration versus a whole-registry snapshot -/

/-- The fan-out body applied to one fixed copy `d` of the mapping.  Modelled
from the spec: `Snapshot()` returns a point-in-time copy of the entire
registry taken before the pass, and the pass iterates only that copy.  (For a
registry that nothing mutates during the pass, the source loop computes the
same thing; `ConnectionManager.broadcastAttempts` is this function read off
the manager state.) -/
def fanoutOf (d : List (String × List WS)) (ex : Option String) :
    List (String × WS) :=
  d.flatMap fun en =>
    if excludeSkips ex en.1 then [] else en.2.map fun w => (en.1, w)

theorem broadcastAttempts_eq_fanoutOf (cm : ConnectionManager)
    (ex : Option String) : cm.broadcastAttempts ex = fanoutOf cm.active_connections ex :=
  rfl

/-- The source fan-out as it actually executes (src/websocket_manager.py,
lines 74-84): `for admin_username, connections in
self.active_connections.items()` iterates the live dict — only each admin's
set is copied (`connections.copy()`), at the moment that admin is visited.
`mu` is the mutation the other coroutines apply to the registry during the
awaited sends of one visit (the sends are the loop's only await points);
`fuel` bounds the number of visits; `i` is the iterator position. -/
def liveFanout (mu : List (String × List WS) → List (String × List WS))
    (ex : Option String) :
    Nat → List (String × List WS) → Nat → List (String × WS)
  | 0, _, _ => []
  | fuel + 1, d, i =>
    match d[i]? with
    | none => []
    | some en =>
      (if excludeSkips ex en.1 then [] else en.2.map fun w => (en.1, w))
        ++ liveFanout mu ex fuel (mu d) (i + 1)

/-- C8, as the spec states it: the pass iterates a point-in-time immutable
snapshot of the entire mapping taken before the fan-out, so concurrent
`Register`/`Unregister` mutations during the pass cannot affect the
iteration. -/
def C8Claim : Prop :=
  ∀ (mu : List (String × List WS) → List (String × List WS))
    (d : List (String × List WS)) (ex : Option String) (fuel : Nat),
    liveFanout mu ex fuel d 0 = liveFanout (fun x => x) ex fuel d 0

/-- C8 is false for the code: starting from the registry {"a" ↦ {1}}, a
concurrent `connect(2, "b")` performed during the send to connection 1 makes
the live iteration visit and deliver to "b" as well — the mutation affects the
pass, which a pre-pass snapshot of the whole mapping would have made
impossible. -/
theorem C8_counterexample_live_iteration : ¬ C8Claim := by
  intro h
  exact absurd
    (h (fun d => (ConnectionManager.connect ⟨d, 0⟩ 2 "b").active_connections)
      [("a", [1])] none 3)
    (by decide)

theorem liveFanout_id (ex : Option String) (d : List (String × List WS)) :
    ∀ (fuel i : Nat), d.length ≤ i + fuel →
    liveFanout (fun x => x) ex fuel d i = fanoutOf (d.drop i) ex := by
  intro fuel
  induction fuel with
  | zero =>
    intro i hi
    rw [List.drop_eq_nil_of_le (by omega)]
    rfl
  | succ n ih =>
    intro i hi
    cases hg : d[i]? with
    | none =>
      have hlen : d.length ≤ i := List.getElem?_eq_none_iff.1 hg
      rw [List.drop_eq_nil_of_le hlen]
      simp [liveFanout, hg, fanoutOf]
    | some en =>
      obtain ⟨hlt, hget⟩ := List.getElem?_eq_some.1 hg
      have hdrop : d.drop i = en :: d.drop (i + 1) := by
        rw [List.drop_eq_getElem_cons hlt, hget]
      rw [hdrop]
      simp only [liveFanout, hg]
      rw [ih (i + 1) (by omega)]
      simp [fanoutOf]

/-- C8 amended: the source copies each identity's connection set only at the
moment that identity is visited and iterates the top-level mapping live, so a
concurrent mutation of the mapping during the pass can change which
connections are attempted (see the counterexample); only in the absence of
such mutation does the live iteration coincide with iterating a pre-pass
snapshot of the whole registry, i.e. with `broadcastAttempts` of the initial
state. -/
theorem C8_live_eq_snapshot_only_unmutated (d : List (String × List WS))
    (ex : Option String) (fuel : Nat) (h : d.length ≤ fuel) :
    liveFanout (fun x => x) ex fuel d 0
      = (⟨d, 0⟩ : ConnectionManager).broadcastAttempts ex := by
  rw [broadcastAttempts_eq_fanoutOf]
  have := liveFanout_id ex d fuel 0 (by omega)
  simpa using this

/-- Witness for C8's amended theorem on a concrete two-admin registry. -/
theorem C8_live_eq_snapshot_only_unmutated_witness :
    ([("a", [1]), ("b", [2])] : List (String × List WS)).length ≤ 2 ∧
    liveFanout (fun x => x) (some "a") 2 [("a", [1]), ("b", [2])] 0
      = (⟨[("a", [1]), ("b", [2])], 0⟩ : ConnectionManager).broadcastAttempts
          (some "a") :=
  ⟨by decide, C8_live_eq_snapshot_only_unmutated [("a", [1]), ("b", [2])]
    (some "a") 2 (by decide)⟩

end WSVerify
